import Mathlib

/-!
Verification of the dataset reconciler of `app.py` (Dash app joining the DANE
department shapefile with the Positiva 2024 workplace-mortality CSV).

The embedding models the preprocessing pipeline of `app.py`:
  * `sum_por_departamento` — pandas `groupby("DPTO_CNMBR").sum()` over the
    raw (pre-canonicalization) name column; NaN group keys are dropped.
  * the two `Series.replace` alias tables (one for the stats table `df_sum`,
    one for the shapefile table `gdf`), which are exact whole-value
    replacements.
  * `normalizar_texto` — `None` passes through (`pd.isna` check), otherwise
    `s.lower()` followed by the seven sequential single-character
    `str.replace` calls over `mal_car`/`bien_car`.
  * `Datos_tot` — `pd.merge(gdf, df_sum, on="DPTO_CNMBR", how="outer")`.

Strings are lists of characters.  Python's `str.lower` is modelled on the
alphabet this application manipulates: the ASCII letters plus the accented
uppercase vowels and Ñ/Ü; every other character is returned unchanged.
Missing values (NaN) are `Option.none`.  Row order of a pandas group-by is
not relied upon downstream, and the model uses first-occurrence order for
group keys.
-/

namespace Reconciler

/-- A string value of a dataframe cell, as a list of characters. -/
abbrev Str := List Char

/-- One row of the Positiva CSV restricted to the two columns the app uses:
the department name (possibly NaN) and the reported death count. -/
structure StatRecord where
  DPTO_CNMBR : Option Str
  MUERTES_REPOR_AT : Int
deriving DecidableEq, Repr

/-- Helper for first-occurrence deduplication: keep the elements not yet in
`seen`, in order. -/
def dedupFirstAux {α : Type} [DecidableEq α] (seen : List α) :
    List α → List α
  | [] => []
  | x :: xs =>
    if x ∈ seen then dedupFirstAux seen xs
    else x :: dedupFirstAux (x :: seen) xs

/-- First-occurrence deduplication of a list of keys (the distinct group
keys of a pandas `groupby`). -/
def dedupFirst {α : Type} [DecidableEq α] (l : List α) : List α :=
  dedupFirstAux [] l

/-- `sum_por_departamento(df, "MUERTES_REPOR_AT")`: group the rows by the raw
`DPTO_CNMBR` value (pandas drops NaN keys) and sum `MUERTES_REPOR_AT` in each
group. -/
def sum_por_departamento (rows : List StatRecord) : List (Str × Int) :=
  (dedupFirst (rows.filterMap StatRecord.DPTO_CNMBR)).map fun n =>
    (n, ((rows.filter fun r => decide (r.DPTO_CNMBR = some n)).map
          StatRecord.MUERTES_REPOR_AT).sum)

/-- Exact whole-value replacement table applied to `df_sum["DPTO_CNMBR"]`. -/
def statAliasTable : List (Str × Str) :=
  [("N. DE SANTANDER".data, "NORTE SANTANDER".data),
   ("VALLE DEL CAUCA".data, "VALLE".data)]

/-- Exact whole-value replacement table applied to `gdf["DPTO_CNMBR"]`. -/
def gdfAliasTable : List (Str × Str) :=
  [("NARI?O".data, "NARIÑO".data),
   ("NORTE DE SANTANDER".data, "NORTE SANTANDER".data),
   ("BOGOTA D.C.".data, "BOGOTA".data),
   ("ARCHIPIELAGO DE SAN ANDRES".data, "SAN ANDRES".data),
   ("VALLE DEL CAUCA".data, "VALLE".data)]

/-- pandas `Series.replace` with a dict of scalars: a cell equal to a key of
the table is replaced by the corresponding value, anything else is kept. -/
def seriesReplace (table : List (Str × Str)) (s : Str) : Str :=
  match table.find? (fun p => decide (p.1 = s)) with
  | some p => p.2
  | none => s

/-- Python `str.lower` restricted to the characters this application
manipulates: the ASCII uppercase letters and the accented uppercase
characters whose lowercase forms appear in `mal_car`; any other character is
returned unchanged. -/
def lowerTable : List (Char × Char) :=
  [('A', 'a'), ('B', 'b'), ('C', 'c'), ('D', 'd'), ('E', 'e'), ('F', 'f'),
   ('G', 'g'), ('H', 'h'), ('I', 'i'), ('J', 'j'), ('K', 'k'), ('L', 'l'),
   ('M', 'm'), ('N', 'n'), ('O', 'o'), ('P', 'p'), ('Q', 'q'), ('R', 'r'),
   ('S', 's'), ('T', 't'), ('U', 'u'), ('V', 'v'), ('W', 'w'), ('X', 'x'),
   ('Y', 'y'), ('Z', 'z'),
   ('Á', 'á'), ('É', 'é'), ('Í', 'í'), ('Ó', 'ó'), ('Ú', 'ú'), ('Ñ', 'ñ'),
   ('Ü', 'ü')]

/-- Lowercasing of a single character via `lowerTable`. -/
def pyLowerChar (c : Char) : Char :=
  match lowerTable.find? (fun p => decide (p.1 = c)) with
  | some p => p.2
  | none => c

/-- `mal_car` of `app.py`. -/
def mal_car : List Char := ['á', 'é', 'í', 'ó', 'ú', 'ñ', 'ü']

/-- `bien_car` of `app.py`. -/
def bien_car : List Char := ['a', 'e', 'i', 'o', 'u', 'n', 'u']

/-- One `str.replace(old, new)` call with a single-character pattern, on one
character: the pair `p` is `(old, new)`. -/
def replFun (p : Char × Char) (c : Char) : Char :=
  if c = p.1 then p.2 else c

/-- The body of `normalizar_texto` on a non-null string: `s = s.lower()`
followed by `s = s.replace(mal_car[i], bien_car[i])` for each index in order.
A single-character `str.replace` is a character-wise map. -/
def normalizarStr (s : Str) : Str :=
  (mal_car.zip bien_car).foldl (fun t p => t.map (replFun p))
    (s.map pyLowerChar)

/-- `normalizar_texto`: `pd.isna(s)` returns the input unchanged, otherwise
the lower/replace body runs. -/
def normalizar_texto : Option Str → Option Str
  | none => none
  | some s => some (normalizarStr s)

/-- The stats table pipeline: `sum_por_departamento`, then the `df_sum`
alias replacement, then `normalizar_texto` applied to the name column
(group keys are non-null, so the body runs). -/
def df_sum (rows : List StatRecord) : List (Str × Int) :=
  (sum_por_departamento rows).map fun p =>
    (normalizarStr (seriesReplace statAliasTable p.1), p.2)

/-- The shapefile pipeline applied to the name column of `gdf`: the `gdf`
alias replacement then `normalizar_texto`, leaving NaN names NaN.  The
geometry column is opaque to the reconciler. -/
def cleanGdf {G : Type} (g : List (Option Str × G)) : List (Option Str × G) :=
  g.map fun b =>
    (normalizar_texto (b.1.map (seriesReplace gdfAliasTable)), b.2)

/-- The merge rows produced by one left row: one combined row per
right row of equal key, or a single row with NaN in the right column when
no right row matches. -/
def mergeRows {G : Type} (right : List (Option Str × Int))
    (l : Option Str × G) : List (Option Str × Option G × Option Int) :=
  match right.filter (fun r => decide (r.1 = l.1)) with
  | [] => [(l.1, some l.2, none)]
  | ms => ms.map fun r => (l.1, some l.2, some r.2)

/-- `pd.merge(left, right, on=key, how="outer")` for a left table with one
extra column of type `G` and a right table with one extra integer column:
each left row is paired with every right row of equal key (NaN in the right
column when there is none), and right rows with no key match in the left
table follow, with NaN in the left column. -/
def outerMerge {G : Type} (left : List (Option Str × G))
    (right : List (Option Str × Int)) :
    List (Option Str × Option G × Option Int) :=
  left.flatMap (mergeRows right)
  ++ ((right.filter fun r => decide (r.1 ∉ left.map Prod.fst)).map fun r =>
      (r.1, none, some r.2))

/-- `Datos_tot = pd.merge(gdf, df_sum, on="DPTO_CNMBR", how="outer")`,
starting from the raw inputs. -/
def Datos_tot {G : Type} (gdf : List (Option Str × G))
    (rows : List StatRecord) : List (Option Str × Option G × Option Int) :=
  outerMerge (cleanGdf gdf) ((df_sum rows).map fun p => (some p.1, p.2))

/-! ### Helper lemmas: deduplication -/

theorem mem_dedupFirstAux {α : Type} [DecidableEq α] (seen l : List α)
    (a : α) : a ∈ dedupFirstAux seen l ↔ a ∈ l ∧ a ∉ seen := by
  induction l generalizing seen with
  | nil => simp [dedupFirstAux]
  | cons x xs ih =>
    by_cases hx : x ∈ seen
    · simp only [dedupFirstAux, if_pos hx, ih, List.mem_cons]
      constructor
      · rintro ⟨h1, h2⟩
        exact ⟨Or.inr h1, h2⟩
      · rintro ⟨h1 | h1, h2⟩
        · exact absurd (h1 ▸ hx) h2
        · exact ⟨h1, h2⟩
    · simp only [dedupFirstAux, if_neg hx, List.mem_cons, ih]
      constructor
      · rintro (rfl | ⟨h1, h2⟩)
        · exact ⟨Or.inl rfl, hx⟩
        · exact ⟨Or.inr h1, fun hs => h2 (Or.inr hs)⟩
      · rintro ⟨rfl | h1, h2⟩
        · exact Or.inl rfl
        · by_cases hax : a = x
          · exact Or.inl hax
          · exact Or.inr ⟨h1, fun hs => hs.elim hax h2⟩

theorem nodup_dedupFirstAux {α : Type} [DecidableEq α] (seen l : List α) :
    (dedupFirstAux seen l).Nodup := by
  induction l generalizing seen with
  | nil => simp [dedupFirstAux]
  | cons x xs ih =>
    by_cases hx : x ∈ seen
    · simpa only [dedupFirstAux, if_pos hx] using ih seen
    · simp only [dedupFirstAux, if_neg hx, List.nodup_cons]
      refine ⟨fun hmem => ?_, ih _⟩
      exact ((mem_dedupFirstAux _ _ _).1 hmem).2 (List.mem_cons_self _ _)

theorem mem_dedupFirst {α : Type} [DecidableEq α] (l : List α) (a : α) :
    a ∈ dedupFirst l ↔ a ∈ l := by
  simp [dedupFirst, mem_dedupFirstAux]

theorem nodup_dedupFirst {α : Type} [DecidableEq α] (l : List α) :
    (dedupFirst l).Nodup :=
  nodup_dedupFirstAux [] l

/-! ### Helper lemmas: character-level view of `normalizar_texto` -/

/-- Apply every step of a list of replacement pairs, in order, to one
value. -/
def applyAll {α β : Type} (ps : List β) (g : β → α → α) (c : α) : α :=
  ps.foldl (fun d p => g p d) c

/-- The seven sequential replacements, on one character. -/
def stripChar : Char → Char :=
  applyAll (mal_car.zip bien_car) replFun

/-- What `normalizar_texto` does to one character of a non-null string. -/
def normChar (c : Char) : Char :=
  stripChar (pyLowerChar c)

/-- The uppercase characters the model's `str.lower` acts on. -/
def upperChars : List Char := lowerTable.map Prod.fst

theorem foldl_map_swap {α β : Type} (g : β → α → α) (ps : List β)
    (l : List α) :
    ps.foldl (fun t p => t.map (g p)) l = l.map (applyAll ps g) := by
  induction ps generalizing l with
  | nil =>
    simp only [List.foldl_nil]
    exact (List.map_id l).symm.trans
      (List.map_congr_left fun c hc => rfl)
  | cons p ps ih =>
    simp only [List.foldl_cons, ih, List.map_map]
    exact List.map_congr_left fun c hc => rfl

theorem applyAll_eq_stripChar :
    applyAll (mal_car.zip bien_car) replFun = stripChar := rfl

theorem stripChar_pyLowerChar (c : Char) :
    stripChar (pyLowerChar c) = normChar c := rfl

theorem map_strip_lower (s : Str) :
    (s.map pyLowerChar).map stripChar = s.map normChar := by
  induction s with
  | nil => simp only [List.map_nil]
  | cons c cs ih =>
    simp only [List.map_cons, ih, stripChar_pyLowerChar]

theorem normalizarStr_eq_map (s : Str) :
    normalizarStr s = s.map normChar := by
  unfold normalizarStr
  rw [foldl_map_swap replFun (mal_car.zip bien_car) (s.map pyLowerChar),
    applyAll_eq_stripChar]
  exact map_strip_lower s

theorem zip_tables :
    mal_car.zip bien_car
      = [('á', 'a'), ('é', 'e'), ('í', 'i'), ('ó', 'o'), ('ú', 'u'),
         ('ñ', 'n'), ('ü', 'u')] := rfl

theorem stripChar_eq (d : Char) :
    stripChar d =
      if d = 'á' then 'a'
      else if d = 'é' then 'e'
      else if d = 'í' then 'i'
      else if d = 'ó' then 'o'
      else if d = 'ú' then 'u'
      else if d = 'ñ' then 'n'
      else if d = 'ü' then 'u'
      else d := by
  by_cases h1 : d = 'á'
  · subst h1; decide
  by_cases h2 : d = 'é'
  · subst h2; decide
  by_cases h3 : d = 'í'
  · subst h3; decide
  by_cases h4 : d = 'ó'
  · subst h4; decide
  by_cases h5 : d = 'ú'
  · subst h5; decide
  by_cases h6 : d = 'ñ'
  · subst h6; decide
  by_cases h7 : d = 'ü'
  · subst h7; decide
  simp only [stripChar, applyAll, zip_tables, List.foldl_cons,
    List.foldl_nil, replFun, if_neg h1, if_neg h2, if_neg h3, if_neg h4,
    if_neg h5, if_neg h6, if_neg h7]

theorem stripChar_not_mal (d : Char) : stripChar d ∉ mal_car := by
  rw [stripChar_eq]
  split_ifs with h1 h2 h3 h4 h5 h6 h7
  · decide
  · decide
  · decide
  · decide
  · decide
  · decide
  · decide
  · simp only [mal_car, List.mem_cons, List.not_mem_nil, or_false]
    push_neg
    exact ⟨h1, h2, h3, h4, h5, h6, h7⟩

theorem stripChar_of_not_mal (d : Char) (hd : d ∉ mal_car) :
    stripChar d = d := by
  rw [stripChar_eq]
  simp only [mal_car, List.mem_cons, List.not_mem_nil, or_false,
    not_or] at hd
  obtain ⟨n1, n2, n3, n4, n5, n6, n7⟩ := hd
  rw [if_neg n1, if_neg n2, if_neg n3, if_neg n4, if_neg n5, if_neg n6,
    if_neg n7]

theorem lowerTable_snd_fixed :
    ∀ p ∈ lowerTable, pyLowerChar p.2 = p.2 := by decide

theorem lowerTable_snd_not_upper :
    ∀ p ∈ lowerTable, p.2 ∉ upperChars := by decide

theorem pyLowerChar_idem (c : Char) :
    pyLowerChar (pyLowerChar c) = pyLowerChar c := by
  unfold pyLowerChar
  cases h : lowerTable.find? fun p => decide (p.1 = c) with
  | none => rw [h]
  | some p =>
    have hp : p ∈ lowerTable := List.mem_of_find?_eq_some h
    have := lowerTable_snd_fixed p hp
    unfold pyLowerChar at this
    exact this

theorem pyLowerChar_not_upper (c : Char) :
    pyLowerChar c ∉ upperChars := by
  unfold pyLowerChar
  cases h : lowerTable.find? fun p => decide (p.1 = c) with
  | none =>
    intro hmem
    simp only [upperChars, List.mem_map] at hmem
    obtain ⟨q, hq, hq1⟩ := hmem
    have := List.find?_eq_none.1 h q hq
    simp [hq1] at this
  | some p =>
    exact lowerTable_snd_not_upper p (List.mem_of_find?_eq_some h)

theorem stripChar_not_upper (d : Char) (hd : d ∉ upperChars) :
    stripChar d ∉ upperChars := by
  rw [stripChar_eq]
  split_ifs
  · decide
  · decide
  · decide
  · decide
  · decide
  · decide
  · decide
  · exact hd

theorem pyLowerChar_fixed_of_not_upper (d : Char) (hd : d ∉ upperChars) :
    pyLowerChar d = d := by
  unfold pyLowerChar
  cases h : lowerTable.find? fun p => decide (p.1 = d) with
  | none => rfl
  | some p =>
    exfalso
    have hp : p ∈ lowerTable := List.mem_of_find?_eq_some h
    have h1 : p.1 = d := by
      have := List.find?_some h
      simpa using this
    exact hd (h1 ▸ List.mem_map_of_mem Prod.fst hp)

theorem normChar_not_upper (c : Char) : normChar c ∉ upperChars :=
  stripChar_not_upper _ (pyLowerChar_not_upper c)

theorem normChar_not_mal (c : Char) : normChar c ∉ mal_car :=
  stripChar_not_mal _

theorem normChar_idem (c : Char) : normChar (normChar c) = normChar c := by
  have h1 : pyLowerChar (normChar c) = normChar c :=
    pyLowerChar_fixed_of_not_upper _ (normChar_not_upper c)
  have h2 : stripChar (normChar c) = normChar c :=
    stripChar_of_not_mal _ (normChar_not_mal c)
  calc normChar (normChar c)
      = stripChar (pyLowerChar (normChar c)) := rfl
    _ = stripChar (normChar c) := by rw [h1]
    _ = normChar c := h2

theorem map_normChar_idem (t : Str) :
    (t.map normChar).map normChar = t.map normChar := by
  induction t with
  | nil => simp only [List.map_nil]
  | cons c cs ih => simp only [List.map_cons, ih, normChar_idem]

/-! ### Claims -/

/-- Claim C3: canonicalization is deterministic and idempotent: applying
`normalizar_texto` twice yields the same result as applying it once, and
equal inputs yield equal outputs, for every input (null included). -/
theorem claim_c3_idempotent_deterministic (s : Option Str) :
    normalizar_texto (normalizar_texto s) = normalizar_texto s
      ∧ ∀ t : Option Str, s = t → normalizar_texto s = normalizar_texto t := by
  refine ⟨?_, fun t ht => congrArg normalizar_texto ht⟩
  cases s with
  | none => rfl
  | some t =>
    simp only [normalizar_texto, normalizarStr_eq_map]
    exact congrArg some (map_normChar_idem t)

/-- Witness for C3 at the concrete input "BOGOTÁ". -/
theorem claim_c3_witness :
    normalizar_texto (normalizar_texto (some "BOGOTÁ".data))
        = normalizar_texto (some "BOGOTÁ".data)
      ∧ normalizar_texto (some "BOGOTÁ".data)
        = normalizar_texto (some "BOGOTÁ".data) :=
  ⟨(claim_c3_idempotent_deterministic (some "BOGOTÁ".data)).1,
   (claim_c3_idempotent_deterministic (some "BOGOTÁ".data)).2
     (some "BOGOTÁ".data) rfl⟩

/-- Claim C5: the alias pair "N. DE SANTANDER" (stats source) and
"NORTE DE SANTANDER" (boundary source) canonicalize, after each source's
own replacement table, to the identical canonical key. -/
theorem claim_c5_alias_pair :
    normalizar_texto
        (some (seriesReplace statAliasTable "N. DE SANTANDER".data))
      = some "norte santander".data
    ∧ normalizar_texto
        (some (seriesReplace gdfAliasTable "NORTE DE SANTANDER".data))
      = some "norte santander".data := by decide

/-- Claim C6: a row with a null/NaN department name is dropped by the
group-by: removing it from anywhere in the input leaves
`sum_por_departamento` unchanged, so no null-name group ever appears (and
the total function never raises). -/
theorem claim_c6_null_name_dropped (pre post : List StatRecord) (v : Int) :
    sum_por_departamento (pre ++ ⟨none, v⟩ :: post)
      = sum_por_departamento (pre ++ post) := by
  have hnames : (pre ++ ⟨none, v⟩ :: post).filterMap StatRecord.DPTO_CNMBR
      = (pre ++ post).filterMap StatRecord.DPTO_CNMBR := by
    simp [List.filterMap_append, List.filterMap_cons]
  unfold sum_por_departamento
  rw [hnames]
  refine List.map_congr_left fun n hn => ?_
  have hfil : (pre ++ ⟨none, v⟩ :: post).filter
        (fun r => decide (r.DPTO_CNMBR = some n))
      = (pre ++ post).filter (fun r => decide (r.DPTO_CNMBR = some n)) := by
    simp [List.filter_append, List.filter_cons]
  rw [hfil]

/-- Claim C7: canonicalization fails closed on a missing (NaN) input: it
returns the input unchanged and, being a total function, never raises. -/
theorem claim_c7_null_passthrough :
    normalizar_texto none = none := rfl

/-- Claim C8: aggregation sums death counts per name group: on the rows
X↦3, X↦5, Y↦2 the result is exactly X↦8, Y↦2 and nothing else. -/
theorem claim_c8_sum :
    sum_por_departamento
        [⟨some "X".data, 3⟩, ⟨some "X".data, 5⟩, ⟨some "Y".data, 2⟩]
      = [("X".data, 8), ("Y".data, 2)] := by decide

/-- Claim C9: diacritic stripping with prior case folding: "BOGOTÁ" and
"Bogota" both normalize to exactly "bogota". -/
theorem claim_c9_diacritics :
    normalizar_texto (some "BOGOTÁ".data) = some "bogota".data
      ∧ normalizar_texto (some "Bogota".data) = some "bogota".data := by
  decide

/-- Claim C10: for every non-null string input, the output of
`normalizar_texto` contains no uppercase letter (of the modelled alphabet)
and none of á, é, í, ó, ú, ñ, ü. -/
theorem claim_c10_no_upper_no_accent (s : Str) :
    ∀ c ∈ normalizarStr s, c ∉ upperChars ∧ c ∉ mal_car := by
  intro c hc
  rw [normalizarStr_eq_map] at hc
  obtain ⟨a, ha, rfl⟩ := List.mem_map.1 hc
  exact ⟨normChar_not_upper a, normChar_not_mal a⟩

/-- Witness for C10 at the concrete input "BOGOTÁ" and its output
character 'b'. -/
theorem claim_c10_witness :
    'b' ∈ normalizarStr "BOGOTÁ".data
      ∧ ('b' ∉ upperChars ∧ 'b' ∉ mal_car) :=
  ⟨by decide, claim_c10_no_upper_no_accent "BOGOTÁ".data 'b' (by decide)⟩

/-- The canonical keys of the aggregated stats table are the normalized,
alias-corrected distinct raw names. -/
theorem keys_df_sum (rows : List StatRecord) :
    (df_sum rows).map Prod.fst
      = (dedupFirst (rows.filterMap StatRecord.DPTO_CNMBR)).map
          (fun n => normalizarStr (seriesReplace statAliasTable n)) := by
  unfold df_sum sum_por_departamento
  rw [List.map_map, List.map_map]
  exact List.map_congr_left fun n hn => rfl

/-- Counterexample to claim C1 as stated: grouping happens on the raw
names before the alias correction runs, so the input rows
"N. DE SANTANDER"↦1 and "NORTE SANTANDER"↦2 yield two aggregated rows
that share the canonical key "norte santander". -/
theorem claim_c1_counterexample :
    ¬ ((df_sum [⟨some "N. DE SANTANDER".data, 1⟩,
        ⟨some "NORTE SANTANDER".data, 2⟩]).map Prod.fst).Nodup := by
  decide

/-- Claim C1 (amended): the canonical keys of the aggregated stats table
are pairwise distinct whenever the alias-correction-plus-normalization map
is injective on the distinct raw names of the input (the code groups by
raw name first, so two raw spellings that collapse to one canonical key
yield duplicate keys). -/
theorem claim_c1_amended (rows : List StatRecord)
    (hinj : ∀ x ∈ dedupFirst (rows.filterMap StatRecord.DPTO_CNMBR),
        ∀ y ∈ dedupFirst (rows.filterMap StatRecord.DPTO_CNMBR),
          normalizarStr (seriesReplace statAliasTable x)
            = normalizarStr (seriesReplace statAliasTable y) → x = y) :
    ((df_sum rows).map Prod.fst).Nodup := by
  rw [keys_df_sum]
  exact List.Nodup.map_on hinj (nodup_dedupFirst _)

/-- Witness for the amended C1 at a concrete two-row input whose raw names
stay distinct after canonicalization. -/
theorem claim_c1_witness :
    ((df_sum [⟨some "X".data, 3⟩, ⟨some "Y".data, 2⟩]).map
      Prod.fst).Nodup :=
  claim_c1_amended _ (by decide)

/-- Counterexample to claim C2 as stated: the outer merge has no zero-fill,
so a boundary record with no stat match is paired with a null (NaN) death
count, not 0: on a one-row boundary table and an empty stats table the
single join row carries `none`. -/
theorem claim_c2_counterexample :
    outerMerge [(some "antioquia".data, (0 : Nat))] []
        = [(some "antioquia".data, some 0, (none : Option Int))]
      ∧ (none : Option Int) ≠ some 0 := by decide

/-- Claim C2 (amended): in the outer join, every boundary record whose key
has no matching stat row is paired with a null (NaN) death count — not
0 — and every stat row whose key has no boundary match is paired with a
null geometry. -/
theorem claim_c2_amended {G : Type} (left : List (Option Str × G))
    (right : List (Option Str × Int)) :
    (∀ l ∈ left, l.1 ∉ right.map Prod.fst →
      (l.1, some l.2, (none : Option Int)) ∈ outerMerge left right)
    ∧ ∀ r ∈ right, r.1 ∉ left.map Prod.fst →
      (r.1, (none : Option G), some r.2) ∈ outerMerge left right := by
  constructor
  · intro l hl hnot
    have hfil : right.filter (fun r => decide (r.1 = l.1)) = [] := by
      rw [List.filter_eq_nil_iff]
      intro r hr hpr
      have he : r.1 = l.1 := of_decide_eq_true hpr
      exact hnot (he ▸ List.mem_map_of_mem Prod.fst hr)
    refine List.mem_append.2 (Or.inl ?_)
    refine List.mem_flatMap.2 ⟨l, hl, ?_⟩
    simp only [mergeRows, hfil]
    exact List.mem_singleton.2 rfl
  · intro r hr hnot
    refine List.mem_append.2 (Or.inr ?_)
    refine List.mem_map.2 ⟨r, ?_, rfl⟩
    rw [List.mem_filter]
    exact ⟨hr, decide_eq_true hnot⟩

/-- Witness for the amended C2: the unmatched boundary key "a" is paired
with a null death count and the unmatched stat key "b" with a null
geometry. -/
theorem claim_c2_witness :
    (some "a".data, some (0 : Nat), (none : Option Int))
        ∈ outerMerge [(some "a".data, (0 : Nat))] [(some "b".data, 5)]
      ∧ (some "b".data, (none : Option Nat), some (5 : Int))
        ∈ outerMerge [(some "a".data, (0 : Nat))] [(some "b".data, 5)] :=
  ⟨(claim_c2_amended [(some "a".data, 0)] [(some "b".data, 5)]).1
      (some "a".data, 0) (by decide) (by decide),
   (claim_c2_amended [(some "a".data, 0)] [(some "b".data, 5)]).2
      (some "b".data, 5) (by decide) (by decide)⟩

/-- Counterexample to claim C4 as stated: with the single boundary row
"NORTE DE SANTANDER" and the stat rows "N. DE SANTANDER"↦1 and
"NORTE SANTANDER"↦2, the aggregated table carries the canonical key
"norte santander" twice, the outer join therefore has 2 rows, yet the
union of canonical keys has size 1. -/
theorem claim_c4_counterexample :
    (Datos_tot [(some "NORTE DE SANTANDER".data, (0 : Nat))]
        [⟨some "N. DE SANTANDER".data, 1⟩,
         ⟨some "NORTE SANTANDER".data, 2⟩]).length = 2
      ∧ (((cleanGdf [(some "NORTE DE SANTANDER".data, (0 : Nat))]).map
            Prod.fst).toFinset
          ∪ (((df_sum [⟨some "N. DE SANTANDER".data, 1⟩,
                ⟨some "NORTE SANTANDER".data, 2⟩]).map
                  fun p => ((some p.1 : Option Str), p.2)).map
                Prod.fst).toFinset).card = 1 := by decide

/-- With no duplicate keys on the right table, the rows matching a key
number 1 or 0 according to whether the key occurs. -/
theorem filter_key_length (right : List (Option Str × Int))
    (hr : (right.map Prod.fst).Nodup) (k : Option Str) :
    (right.filter fun r => decide (r.1 = k)).length
      = if k ∈ right.map Prod.fst then 1 else 0 := by
  induction right with
  | nil => simp
  | cons r rs ih =>
    rw [List.map_cons, List.nodup_cons] at hr
    obtain ⟨hnot, hrs⟩ := hr
    by_cases hk : r.1 = k
    · subst hk
      simp [List.filter_cons, List.length_cons, ih hrs, hnot]
    · have hfc : List.filter (fun x => decide (x.1 = k)) (r :: rs)
          = List.filter (fun x => decide (x.1 = k)) rs := by
        rw [List.filter_cons]
        simp [hk]
      have hmemiff : (k ∈ List.map Prod.fst (r :: rs))
          ↔ k ∈ List.map Prod.fst rs := by
        rw [List.map_cons, List.mem_cons]
        constructor
        · rintro (h1 | h1)
          · exact absurd h1.symm hk
          · exact h1
        · exact Or.inr
      rw [hfc, ih hrs, if_congr hmemiff rfl rfl]

/-- When the right keys are unique, every left row produces exactly one
merge row. -/
theorem mergeRows_length {G : Type} (right : List (Option Str × Int))
    (hr : (right.map Prod.fst).Nodup) (l : Option Str × G) :
    (mergeRows right l).length = 1 := by
  unfold mergeRows
  cases hm : right.filter (fun r => decide (r.1 = l.1)) with
  | nil => rfl
  | cons m ms =>
    have hlen := filter_key_length right hr l.1
    rw [hm] at hlen
    rw [List.length_map]
    by_cases hmem : l.1 ∈ right.map Prod.fst
    · rw [if_pos hmem] at hlen
      exact hlen
    · rw [if_neg hmem] at hlen
      simp at hlen

/-- The matched-or-lone part of the outer merge contributes exactly one
row per left row when the right keys are unique. -/
theorem outerMerge_left_length {G : Type} (left : List (Option Str × G))
    (right : List (Option Str × Int))
    (hr : (right.map Prod.fst).Nodup) :
    (left.flatMap (mergeRows right)).length = left.length := by
  induction left with
  | nil => rfl
  | cons l ls ih =>
    rw [List.flatMap_cons, List.length_append, ih,
      mergeRows_length right hr l, List.length_cons]
    omega

/-- The right-only part of the outer merge has as many rows as the key
difference, when the right keys are unique. -/
theorem unmatched_right_length {G : Type} (left : List (Option Str × G))
    (right : List (Option Str × Int))
    (hr : (right.map Prod.fst).Nodup) :
    ((right.filter fun r => decide (r.1 ∉ left.map Prod.fst)).map
        (fun r => (r.1, (none : Option G), some r.2))).length
      = ((right.map Prod.fst).toFinset
          \ (left.map Prod.fst).toFinset).card := by
  rw [List.length_map]
  have hmapfil : (right.map Prod.fst).filter
        (fun k => decide (k ∉ left.map Prod.fst))
      = (right.filter fun r => decide (r.1 ∉ left.map Prod.fst)).map
          Prod.fst := by
    rw [List.filter_map]
    rfl
  have hnodupfil : ((right.map Prod.fst).filter
      (fun k => decide (k ∉ left.map Prod.fst))).Nodup :=
    List.Nodup.filter (fun k => decide (k ∉ left.map Prod.fst)) hr
  have htofin : ((right.map Prod.fst).filter
        (fun k => decide (k ∉ left.map Prod.fst))).toFinset
      = (right.map Prod.fst).toFinset
          \ (left.map Prod.fst).toFinset := by
    ext a
    simp only [List.mem_toFinset, List.mem_filter, Finset.mem_sdiff,
      decide_eq_true_eq]
  calc (right.filter fun r => decide (r.1 ∉ left.map Prod.fst)).length
      = ((right.map Prod.fst).filter
          (fun k => decide (k ∉ left.map Prod.fst))).length := by
        rw [hmapfil, List.length_map]
    _ = ((right.map Prod.fst).filter
          (fun k => decide (k ∉ left.map Prod.fst))).toFinset.card :=
        (List.toFinset_card_of_nodup hnodupfil).symm
    _ = ((right.map Prod.fst).toFinset
          \ (left.map Prod.fst).toFinset).card := by
        rw [htofin]

/-- Claim C4 (amended): when the canonical keys are unique within each
table, the outer join has exactly one row per canonical key in the union
of the two key sets (with duplicated keys — which the pipeline can
produce — the merge yields a cross product instead). -/
theorem claim_c4_amended {G : Type} (left : List (Option Str × G))
    (right : List (Option Str × Int))
    (hl : (left.map Prod.fst).Nodup) (hr : (right.map Prod.fst).Nodup) :
    (outerMerge left right).length
      = ((left.map Prod.fst).toFinset
          ∪ (right.map Prod.fst).toFinset).card := by
  unfold outerMerge
  rw [List.length_append, outerMerge_left_length left right hr,
    unmatched_right_length left right hr]
  have hcard := Finset.card_sdiff_add_card
    ((right.map Prod.fst).toFinset) ((left.map Prod.fst).toFinset)
  rw [Finset.union_comm] at hcard
  have hlcard : (left.map Prod.fst).toFinset.card = left.length := by
    rw [List.toFinset_card_of_nodup hl, List.length_map]
  omega

/-- Witness for the amended C4 at concrete one-row tables with distinct
keys: 2 join rows, 2 canonical keys in the union. -/
theorem claim_c4_witness :
    ((([(some "a".data, (0 : Nat))]).map Prod.fst).Nodup
        ∧ (([(some "b".data, (5 : Int))]).map Prod.fst).Nodup)
      ∧ (outerMerge [(some "a".data, (0 : Nat))]
          [(some "b".data, (5 : Int))]).length
        = (([(some "a".data, (0 : Nat))].map Prod.fst).toFinset
            ∪ ([(some "b".data, (5 : Int))].map Prod.fst).toFinset).card :=
  ⟨⟨by decide, by decide⟩,
   claim_c4_amended [(some "a".data, 0)] [(some "b".data, 5)]
     (by decide) (by decide)⟩

end Reconciler
